import Mathlib

/-!
# Verification of the RoboSats `DepthChart` component

Shallow embedding of `src/frontend/src/components/Charts/DepthChart/index.tsx`.
JavaScript numbers are modelled as exact rationals extended with the special
values `NaN`, `+Infinity` and `-Infinity` (floating-point rounding is not
modelled; the arithmetic the component performs is exact on its inputs).
The component's reactive state (React `useState`/`useEffect`) is modelled as an
explicit state record and explicit effect functions run in declaration order.
-/

/-- A JavaScript number: a finite value (exact rational) or one of the special
IEEE values.  The two signed zeros are collapsed into `num 0`. -/
inductive JSNum where
  | num : ℚ → JSNum
  | nan : JSNum
  | inf : JSNum
  | negInf : JSNum
deriving DecidableEq, Repr

/-- JS unary minus. -/
def jsNeg : JSNum → JSNum
  | .num a => .num (-a)
  | .nan => .nan
  | .inf => .negInf
  | .negInf => .inf

/-- JS `+` on numbers. -/
def jsAdd : JSNum → JSNum → JSNum
  | .num a, .num b => .num (a + b)
  | .nan, _ => .nan
  | _, .nan => .nan
  | .inf, .negInf => .nan
  | .negInf, .inf => .nan
  | .inf, _ => .inf
  | _, .inf => .inf
  | .negInf, _ => .negInf
  | _, .negInf => .negInf

/-- JS binary `-` on numbers. -/
def jsSub (a b : JSNum) : JSNum := jsAdd a (jsNeg b)

/-- JS `*` on numbers. -/
def jsMul : JSNum → JSNum → JSNum
  | .num a, .num b => .num (a * b)
  | .nan, _ => .nan
  | _, .nan => .nan
  | .inf, .num b => if b = 0 then .nan else if 0 < b then .inf else .negInf
  | .num a, .inf => if a = 0 then .nan else if 0 < a then .inf else .negInf
  | .negInf, .num b => if b = 0 then .nan else if 0 < b then .negInf else .inf
  | .num a, .negInf => if a = 0 then .nan else if 0 < a then .negInf else .inf
  | .inf, .inf => .inf
  | .negInf, .negInf => .inf
  | .inf, .negInf => .negInf
  | .negInf, .inf => .negInf

/-- JS `/` on numbers.  `0/0` is `NaN`, `a/0` for `a ≠ 0` is a signed infinity
(the divisor `0` stands for `+0`, the only zero of the model). -/
def jsDiv : JSNum → JSNum → JSNum
  | .num a, .num b =>
      if b = 0 then (if a = 0 then .nan else if 0 < a then .inf else .negInf)
      else .num (a / b)
  | .nan, _ => .nan
  | _, .nan => .nan
  | .num _, .inf => .num 0
  | .num _, .negInf => .num 0
  | .inf, .num b => if 0 ≤ b then .inf else .negInf
  | .negInf, .num b => if 0 ≤ b then .negInf else .inf
  | .inf, .inf => .nan
  | .inf, .negInf => .nan
  | .negInf, .inf => .nan
  | .negInf, .negInf => .nan

/-- JS `<`: any comparison involving `NaN` is false. -/
def jsLt : JSNum → JSNum → Bool
  | .num a, .num b => decide (a < b)
  | .nan, _ => false
  | _, .nan => false
  | .num _, .inf => true
  | .inf, .num _ => false
  | .negInf, .num _ => true
  | .num _, .negInf => false
  | .negInf, .inf => true
  | .inf, .negInf => false
  | .inf, .inf => false
  | .negInf, .negInf => false

/-- JS `>`. -/
def jsGt (a b : JSNum) : Bool := jsLt b a

/-- JS `<=`: any comparison involving `NaN` is false. -/
def jsLe : JSNum → JSNum → Bool
  | .num a, .num b => decide (a ≤ b)
  | .nan, _ => false
  | _, .nan => false
  | .num _, .inf => true
  | .inf, .num _ => false
  | .negInf, .num _ => true
  | .num _, .negInf => false
  | .negInf, .inf => true
  | .inf, .negInf => false
  | .inf, .inf => true
  | .negInf, .negInf => true

/-- JS `Number(x)` applied to a possibly-`undefined` number:
`Number(undefined)` is `NaN`. -/
def numberOf : Option JSNum → JSNum
  | none => .nan
  | some v => v

/-- Truncation toward zero of a rational (the finite-value part of `~~x`). -/
def ratTrunc (q : ℚ) : ℤ := if 0 ≤ q then ⌊q⌋ else ⌈q⌉

/-- Wrap an integer into the signed 32-bit range, as JS `ToInt32` does. -/
def wrap32 (n : ℤ) : ℤ := (n + 2 ^ 31) % 2 ^ 32 - 2 ^ 31

/-- JS `~~x` (double bitwise not), i.e. `ToInt32`: truncate toward zero and
wrap to 32 bits; `NaN` and the infinities go to `0`. -/
def jsToInt32 : JSNum → ℤ
  | .num q => wrap32 (ratTrunc q)
  | _ => 0

/-- Modelled from the spec: the `PublicOrder` model is imported from
`../../../models`, which is not under `src/`.  Fields follow spec §3: an id,
a side (`type`, 0 = buy, 1 = sell), a raw price, a premium (%), the
traded-volume-now `satoshis_now` (a nonnegative integer amount in the
smallest currency unit, optional because the code reads it as
`satoshis_now ?? 0`), the optional originating-coordinator identifier, and
the optional normalized price field `base_amount` (a JS number that the
normalizer may set to `NaN`, hence `Option JSNum`; `none` is `undefined`). -/
structure PublicOrder where
  id : ℕ
  type : ℕ
  price : ℚ
  premium : ℚ
  satoshis_now : Option ℕ
  coordinatorShortAlias : Option String
  base_amount : Option JSNum
deriving DecidableEq, Repr

/-- The axis mode: the `xType` state is a string that the `Select` control
only ever sets to `'premium'` or `'base_amount'` (its two `MenuItem`s). -/
inductive XType where
  | premium : XType
  | base_amount : XType
deriving DecidableEq, Repr

/-- The body of the enrich effect's arrow (index.tsx lines 74-79): if the
order has a known source coordinator, look up that coordinator's limit entry
for the active currency (`limits[currencyCode] ? limits[currencyCode].price
: 0`, modelled by an `Option ℚ`-valued lookup with fallback `0`) and assign
`order.base_amount = (order.price * price) / price`.  In the source this
assignment mutates the shared order object in place; here the updated order
is returned, and `normalizeBook` below records that the returned list is
also the post-state of the shared snapshot's elements. -/
def normalizeOrder (getLimitPrice : String → ℕ → Option ℚ) (currencyCode : ℕ)
    (order : PublicOrder) : PublicOrder :=
  match order.coordinatorShortAlias with
  | some a =>
      let price : ℚ := (getLimitPrice a currencyCode).getD 0
      { order with
        base_amount := some (jsDiv (jsMul (.num order.price) (.num price)) (.num price)) }
  | none => order

/-- The enrich effect (index.tsx lines 68-83): `federation.book.map(...)`.
Because the arrow mutates each order and returns the same object, this list
is at once the value of `enriched` and the post-state of the orders of the
externally-owned `federation.book` snapshot. -/
def normalizeBook (getLimitPrice : String → ℕ → Option ℚ) (currencyCode : ℕ)
    (book : List PublicOrder) : List PublicOrder :=
  book.map (normalizeOrder getLimitPrice currencyCode)

/-- An order's volume as charted (index.tsx line 155):
`(order.satoshis_now ?? 0) / 100000000`. -/
def vol (o : PublicOrder) : ℚ := ((o.satoshis_now.getD 0 : ℕ) : ℚ) / 100000000

/-- Total charted volume of a list of orders. -/
def cumVol (os : List PublicOrder) : ℚ := (os.map vol).sum

/-- The x value emitted for an order (index.tsx lines 159/164):
`xType === 'base_amount' ? order.base_amount : order.premium`.  In
`base_amount` mode this can be `undefined` (`none`) or `NaN`. -/
def metric (xt : XType) (o : PublicOrder) : Option JSNum :=
  match xt with
  | .base_amount => o.base_amount
  | .premium => some (.num o.premium)

/-- A point of a series (a `Datum` of the source): an x value (possibly
`undefined`), a cumulative-volume y value, and for "landing" points the
originating order for the tooltip. -/
structure Datum where
  x : Option JSNum
  y : ℚ
  order : Option PublicOrder
deriving DecidableEq, Repr

/-- One iteration of the `orders.forEach` loop of `generateSerie`
(index.tsx lines 153-171), acting on the loop state `(sumOrders, serie)`:
remember the previous sum, add the order's volume, and append the vertical
riser point and the order ("landing") point, both at the order's metric. -/
def serieStep (xt : XType) (acc : ℚ × List Datum) (o : PublicOrder) : ℚ × List Datum :=
  let lastSumOrders := acc.1
  let sumOrders := acc.1 + vol o
  (sumOrders,
    acc.2 ++ [⟨metric xt o, lastSumOrders, none⟩, ⟨metric xt o, sumOrders, some o⟩])

/-- The unfiltered `serie` built by the loop of `generateSerie`, starting
from `sumOrders = 0` and the empty list. -/
def rawSerie (xt : XType) (os : List PublicOrder) : List Datum :=
  (os.foldl (serieStep xt) (0, [])).2

/-- The window filter of `generateSerie` (index.tsx lines 172-174):
`Number(datum.x) > center - xRange && Number(datum.x) < center + xRange`.
Both comparisons are strict, and both are false when the x is non-numeric. -/
def inWindowB (center xRange : JSNum) (x : Option JSNum) : Bool :=
  jsGt (numberOf x) (jsSub center xRange) && jsLt (numberOf x) (jsAdd center xRange)

/-- `generateSerie` (index.tsx lines 146-177): return `[]` immediately if
`center` is undefined, else build the cumulative two-point-per-order serie
and keep only the points inside the window. -/
def generateSerie (xt : XType) (center : Option JSNum) (xRange : JSNum)
    (orders : List PublicOrder) : List Datum :=
  match center with
  | none => []
  | some c => (rawSerie xt orders).filter (fun d => inWindowB c xRange d.x)

/-- `serie[serie.length - 1].y` for a nonempty JS array, `0` as a default
otherwise (the source only evaluates it on nonempty arrays). -/
def lastDatumY (serie : List Datum) : ℚ := ((serie.getLast?).map Datum.y).getD 0

/-- `closeSerie` (index.tsx lines 179-200): on a nonempty serie, prepend a
synthetic point at `(limitBottom, first y)` when the first y is not `0`
(the `unshift`), then append a synthetic point at `limitTop` carrying the
last y of the (possibly extended) array. -/
def closeSerie (serie : List Datum) (limitBottom limitTop : JSNum) : List Datum :=
  match serie with
  | [] => []
  | first :: rest =>
      let serie1 : List Datum :=
        if first.y ≠ 0 then ⟨some limitBottom, first.y, none⟩ :: first :: rest
        else first :: rest
      serie1 ++ [⟨some limitTop, lastDatumY serie1, none⟩]

/-- Insert `a` into `l` the way a stable JS `Array.prototype.sort` with
comparator `cmp` orders elements: `a` goes after `b` exactly when
`cmp a b > 0` (a `NaN` comparator value is treated as `+0` per the ES
SortCompare clause, so it keeps the original order). -/
def jsOrderedInsert (cmp : α → α → JSNum) (a : α) : List α → List α
  | [] => [a]
  | b :: l => if jsGt (cmp a b) (.num 0) then b :: jsOrderedInsert cmp a l else a :: b :: l

/-- JS `Array.prototype.sort(cmp)`, modelled as a stable insertion sort by
the comparator (ES2019 requires the sort to be stable; for a consistent
comparator every conforming implementation produces this result).  The
source mutates the array it sorts in place; callers below thread the sorted
list back into the state where the source relies on that. -/
def jsSortBy (cmp : α → α → JSNum) : List α → List α
  | [] => []
  | a :: l => jsOrderedInsert cmp a (jsSortBy cmp l)

/-- The React state of the component that the core pipeline reads and
writes (index.tsx lines 53-59), with its `useState` initial values. -/
structure ChartState where
  enrichedOrders : List PublicOrder
  seriesBuy : List Datum
  seriesSell : List Datum
  rangeSteps : JSNum
  xRange : JSNum
  center : Option JSNum
deriving DecidableEq, Repr

/-- The initial state: empty orders and series, `rangeSteps = 8`,
`xRange = 8`, `center` undefined. -/
def initialState : ChartState :=
  { enrichedOrders := []
    seriesBuy := []
    seriesSell := []
    rangeSteps := .num 8
    xRange := .num 8
    center := none }

/-- The comparator of the sort at index.tsx lines 118-121: in `base_amount`
mode `(order1?.base_amount ?? 0) - (order2?.base_amount ?? 0)`, in premium
mode `order1.premium - order2.premium`. -/
def orderCmp (xt : XType) (o1 o2 : PublicOrder) : JSNum :=
  match xt with
  | .base_amount => jsSub (o1.base_amount.getD (.num 0)) (o2.base_amount.getD (.num 0))
  | .premium => .num (o1.premium - o2.premium)

/-- `generateSeries` (index.tsx lines 115-144): sort the enriched orders by
the active metric (mutating `enrichedOrders` in place, recorded by writing
the sorted list back into the state), split into the reversed buy group and
the sell group, build and filter both series, and close them against
`maxX = (center ?? 0) + xRange` and `minX = (center ?? 0) - xRange` — the
buy serie with limits `(maxX, minX)`, the sell serie with `(minX, maxX)`. -/
def generateSeriesEffectBody (xt : XType) (s : ChartState) : ChartState :=
  let sortedOrders := jsSortBy (orderCmp xt) s.enrichedOrders
  let sortedBuyOrders := (sortedOrders.filter (fun o => o.type == 0)).reverse
  let sortedSellOrders := sortedOrders.filter (fun o => o.type == 1)
  let buySerie := generateSerie xt s.center s.xRange sortedBuyOrders
  let sellSerie := generateSerie xt s.center s.xRange sortedSellOrders
  let maxX := jsAdd (s.center.getD (.num 0)) s.xRange
  let minX := jsSub (s.center.getD (.num 0)) s.xRange
  { s with
    enrichedOrders := sortedOrders
    seriesBuy := closeSerie buySerie maxX minX
    seriesSell := closeSerie sellSerie minX maxX }

/-- Modelled from the spec: `matchMedian` is imported from `../../../utils`,
which is not under `src/`.  Per spec §4.4 it yields the median of a list of
numbers: here the middle element of the ascending sort for odd length and
the mean of the two middle elements for even length (`0` for the empty
list).  Only the all-finite case is fixed by the spec; `ratMedian` is that
case, on plain rationals. -/
def ratMedian (qs : List ℚ) : ℚ :=
  let sorted := List.insertionSort (fun a b => a ≤ b) qs
  if sorted.length % 2 = 1 then (sorted[sorted.length / 2]?).getD 0
  else ((sorted[sorted.length / 2 - 1]?).getD 0 + (sorted[sorted.length / 2]?).getD 0) / 2

/-- Is this JS number finite? -/
def JSNum.isFinite : JSNum → Bool
  | .num _ => true
  | _ => false

/-- The finite value of a JS number, if any. -/
def JSNum.toRat : JSNum → Option ℚ
  | .num q => some q
  | _ => none

/-- Modelled from the spec: `matchMedian` (from `../../../utils`, not under
`src/`) on JS numbers — the median of the values when all are finite;
`NaN` otherwise (the behavior on non-finite inputs is not specified). -/
def matchMedian (xs : List JSNum) : JSNum :=
  if xs.all JSNum.isFinite then .num (ratMedian (xs.filterMap JSNum.toRat)) else .nan

/-- The center/window effect (index.tsx lines 91-113).  In `base_amount`
mode: `center = ~~matchMedian(prices)` over `prices = enrichedOrders.map(o
=> o?.base_amount ?? 0)`, `maxValue` the head of the descending in-place
sort of `prices` (`?? 1500` when empty), `xRange = maxValue - center` and
`rangeSteps = xRange / 10`.  In premium mode: `center` is the external
last-24h premium when available, else `~~matchMedian(premiums)`; `xRange =
8`, `rangeSteps = 0.5`.  `matchMedianFn` stands for the imported
`matchMedian`; the sort of `prices` with comparator `(a, b) => b - a` uses
the JS sort model above (its result on lists with non-finite entries is
implementation-defined in JS; the model fixes one conforming order). -/
def centerEffectBody (matchMedianFn : List JSNum → JSNum) (xt : XType)
    (exchangePremium : Option ℚ) (s : ChartState) : ChartState :=
  match xt with
  | .base_amount =>
      let prices : List JSNum := s.enrichedOrders.map (fun o => o.base_amount.getD (.num 0))
      let medianValue : ℤ := jsToInt32 (matchMedianFn prices)
      let maxValue : JSNum :=
        ((jsSortBy (fun a b => jsSub b a) prices).head?).getD (.num 1500)
      let maxRange : JSNum := jsSub maxValue (.num (medianValue : ℚ))
      let steps : JSNum := jsDiv maxRange (.num 10)
      { s with center := some (.num (medianValue : ℚ)), xRange := maxRange, rangeSteps := steps }
  | .premium =>
      let c : JSNum :=
        match exchangePremium with
        | none =>
            .num ((jsToInt32 (matchMedianFn (s.enrichedOrders.map (fun o => .num o.premium)))) : ℚ)
        | some p => .num p
      { s with center := some c, xRange := .num 8, rangeSteps := .num (1 / 2 : ℚ) }

/-- One full mount pass of the component's effects, in declaration order
(index.tsx lines 68-113): the enrich effect runs only when the book is
nonempty; the series effect runs only when `enrichedOrders` is nonempty;
the center/window effect always runs. -/
def mountPass (matchMedianFn : List JSNum → JSNum)
    (getLimitPrice : String → ℕ → Option ℚ) (currencyCode : ℕ) (xt : XType)
    (exchangePremium : Option ℚ) (book : List PublicOrder) : ChartState :=
  let s0 := initialState
  let s1 :=
    if book.length > 0 then { s0 with enrichedOrders := normalizeBook getLimitPrice currencyCode book }
    else s0
  let s2 := if s1.enrichedOrders.length > 0 then generateSeriesEffectBody xt s1 else s1
  centerEffectBody matchMedianFn xt exchangePremium s2

/-- The first zoom `IconButton` (index.tsx lines 299-306): its `onClick`
widens the window, `setXRange(xRange + rangeSteps)`; it carries no
`disabled` attribute, so it is never disabled. -/
def widenRangeOnClick (xRange rangeSteps : JSNum) : JSNum := jsAdd xRange rangeSteps

/-- The `disabled` value of the widening zoom button: absent, hence false. -/
def widenRangeDisabled : Bool := false

/-- The second zoom `IconButton` (index.tsx lines 314-323): its `onClick`
narrows the window, `setXRange(xRange - rangeSteps)`. -/
def narrowRangeOnClick (xRange rangeSteps : JSNum) : JSNum := jsSub xRange rangeSteps

/-- The `disabled` prop of the narrowing zoom button: `xRange <= 1`. -/
def narrowRangeDisabled (xRange : JSNum) : Bool := jsLe xRange (.num 1)

/-- Specification-side closed form of the emission loop of `generateSerie`:
starting from the running sum `s`, each order contributes exactly two points
at its metric — first the pre-increment sum, then the post-increment sum
(the landing point carrying the order). -/
def stepPoints (xt : XType) : ℚ → List PublicOrder → List Datum
  | _, [] => []
  | s, o :: os =>
      ⟨metric xt o, s, none⟩ :: ⟨metric xt o, s + vol o, some o⟩ ::
        stepPoints xt (s + vol o) os

/-- Specification-side: the total volume of the orders whose metric falls in
the visible window — what claim C4 says the last emitted y-value equals. -/
def windowVolume (xt : XType) (c r : ℚ) (os : List PublicOrder) : ℚ :=
  cumVol (os.filter (fun o => inWindowB (.num c) (.num r) (metric xt o)))

/-- A coordinator identifier for concrete runs. -/
def expAlias : String := String.mk ['e', 'x', 'p']

/-- A limits lookup with no reference-price entry for any currency. -/
def emptyLookup : String → ℕ → Option ℚ := fun _ _ => none

/-- A limits lookup quoting a reference price of 50 for every currency. -/
def constLookup : String → ℕ → Option ℚ := fun _ _ => some 50

/-- A concrete not-yet-normalized buy order with a known coordinator. -/
def sampleOrder : PublicOrder :=
  { id := 1, type := 0, price := 100, premium := 2, satoshis_now := some 100000000,
    coordinatorShortAlias := some expAlias, base_amount := none }

/-- A sell order at premium −10 with 1 BTC of volume: it lies outside the
window centered at 0 with half-width 8 but ahead of in-window orders in
traversal order. -/
def farSellOrder : PublicOrder :=
  { id := 2, type := 1, price := 90, premium := -10, satoshis_now := some 100000000,
    coordinatorShortAlias := none, base_amount := none }

/-- A sell order at premium 0 with 1 BTC of volume. -/
def nearSellOrder : PublicOrder :=
  { id := 3, type := 1, price := 100, premium := 0, satoshis_now := some 100000000,
    coordinatorShortAlias := none, base_amount := none }

/-- A filtered serie whose first point has y = 0, as `generateSerie` emits
for a group whose first in-window order is preceded by no volume. -/
def flatStartSerie : List Datum :=
  [⟨some (.num 2), 0, none⟩, ⟨some (.num 2), 1, some nearSellOrder⟩]

/-- Normalized orders with finite base amounts 10, 30 and 20. -/
def pricedOrder1 : PublicOrder :=
  { id := 4, type := 0, price := 10, premium := 1, satoshis_now := some 50000000,
    coordinatorShortAlias := some expAlias, base_amount := some (.num 10) }

/-- See `pricedOrder1`. -/
def pricedOrder2 : PublicOrder :=
  { id := 5, type := 1, price := 30, premium := 2, satoshis_now := some 150000000,
    coordinatorShortAlias := some expAlias, base_amount := some (.num 30) }

/-- See `pricedOrder1`. -/
def pricedOrder3 : PublicOrder :=
  { id := 6, type := 1, price := 20, premium := 3, satoshis_now := some 100000000,
    coordinatorShortAlias := some expAlias, base_amount := some (.num 20) }

/-- An order whose `base_amount` stayed `undefined` (no coordinator
identifier), carrying 2 BTC of volume. -/
def nanOrder : PublicOrder :=
  { id := 7, type := 1, price := 100, premium := 5, satoshis_now := some 200000000,
    coordinatorShortAlias := none, base_amount := none }

/-- A normalized order with finite base amount 5 and 1 BTC of volume. -/
def finOrder1 : PublicOrder :=
  { id := 8, type := 1, price := 5, premium := 1, satoshis_now := some 100000000,
    coordinatorShortAlias := some expAlias, base_amount := some (.num 5) }

/-- A normalized order with finite base amount 6 and 1 BTC of volume. -/
def finOrder2 : PublicOrder :=
  { id := 9, type := 1, price := 6, premium := 2, satoshis_now := some 100000000,
    coordinatorShortAlias := some expAlias, base_amount := some (.num 6) }

/-- A state whose enriched orders have the finite base amounts 10, 30, 20. -/
def pricedState : ChartState :=
  { initialState with enrichedOrders := [pricedOrder1, pricedOrder2, pricedOrder3] }

@[simp] lemma jsAdd_num (a b : ℚ) : jsAdd (.num a) (.num b) = .num (a + b) := rfl

@[simp] lemma jsSub_num (a b : ℚ) : jsSub (.num a) (.num b) = .num (a - b) := by
  simp [jsSub, jsNeg, jsAdd, sub_eq_add_neg]

@[simp] lemma jsMul_num (a b : ℚ) : jsMul (.num a) (.num b) = .num (a * b) := rfl

@[simp] lemma jsLt_num (a b : ℚ) : jsLt (.num a) (.num b) = decide (a < b) := rfl

@[simp] lemma jsLe_num (a b : ℚ) : jsLe (.num a) (.num b) = decide (a ≤ b) := rfl

@[simp] lemma numberOf_some (v : JSNum) : numberOf (some v) = v := rfl

@[simp] lemma numberOf_none : numberOf none = .nan := rfl

lemma jsDiv_num_of_ne (a b : ℚ) (hb : b ≠ 0) :
    jsDiv (.num a) (.num b) = .num (a / b) := by
  simp [jsDiv, hb]

lemma jsDiv_zero_zero : jsDiv (.num 0) (.num 0) = .nan := by
  simp [jsDiv]

@[simp] lemma cumVol_nil : cumVol [] = 0 := rfl

@[simp] lemma cumVol_cons (o : PublicOrder) (os : List PublicOrder) :
    cumVol (o :: os) = vol o + cumVol os := by
  simp [cumVol]

@[simp] lemma cumVol_append (xs ys : List PublicOrder) :
    cumVol (xs ++ ys) = cumVol xs + cumVol ys := by
  simp [cumVol]

lemma vol_nonneg (o : PublicOrder) : 0 ≤ vol o := by
  unfold vol
  positivity

lemma foldl_serieStep (xt : XType) (os : List PublicOrder) :
    ∀ (s : ℚ) (acc : List Datum),
      os.foldl (serieStep xt) (s, acc) = (s + cumVol os, acc ++ stepPoints xt s os) := by
  induction os with
  | nil => intro s acc; simp [stepPoints]
  | cons o os ih =>
      intro s acc
      simp only [List.foldl_cons, serieStep, ih, stepPoints, cumVol_cons]
      rw [Prod.mk.injEq]
      constructor
      · ring
      · simp

/-- The loop of `generateSerie` computes exactly the closed-form step
points. -/
lemma rawSerie_eq_stepPoints (xt : XType) (os : List PublicOrder) :
    rawSerie xt os = stepPoints xt 0 os := by
  unfold rawSerie
  rw [foldl_serieStep]
  simp

lemma stepPoints_append (xt : XType) (xs : List PublicOrder) :
    ∀ (s : ℚ) (ys : List PublicOrder),
      stepPoints xt s (xs ++ ys) = stepPoints xt s xs ++ stepPoints xt (s + cumVol xs) ys := by
  induction xs with
  | nil => intro s ys; simp [stepPoints]
  | cons o xs ih =>
      intro s ys
      simp only [List.cons_append, stepPoints, cumVol_cons, List.append_assoc,
        List.cons.injEq, true_and]
      rw [← add_assoc]
      exact ih (s + vol o) ys

lemma stepPoints_length (xt : XType) :
    ∀ (s : ℚ) (os : List PublicOrder), (stepPoints xt s os).length = 2 * os.length := by
  intro s os
  induction os generalizing s with
  | nil => simp [stepPoints]
  | cons o os ih => simp [stepPoints, ih]; ring

lemma mem_stepPoints_y_lb (xt : XType) :
    ∀ (s : ℚ) (os : List PublicOrder) (d : Datum), d ∈ stepPoints xt s os → s ≤ d.y := by
  intro s os
  induction os generalizing s with
  | nil => intro d hd; simp [stepPoints] at hd
  | cons o os ih =>
      intro d hd
      simp only [stepPoints, List.mem_cons] at hd
      rcases hd with h | h | h
      · simp [h]
      · simp [h]; exact vol_nonneg o
      · exact le_trans (le_add_of_nonneg_right (vol_nonneg o)) (ih (s + vol o) d h)

lemma stepPoints_pairwise (xt : XType) :
    ∀ (s : ℚ) (os : List PublicOrder),
      List.Pairwise (fun d1 d2 : Datum => d1.y ≤ d2.y) (stepPoints xt s os) := by
  intro s os
  induction os generalizing s with
  | nil => simp [stepPoints]
  | cons o os ih =>
      simp only [stepPoints, List.pairwise_cons]
      refine ⟨?_, ?_, ih (s + vol o)⟩
      · intro d hd
        simp only [List.mem_cons] at hd
        rcases hd with h | h
        · simp [h]; exact vol_nonneg o
        · exact le_trans (le_add_of_nonneg_right (vol_nonneg o))
            (mem_stepPoints_y_lb xt (s + vol o) os d h)
      · intro d hd
        exact mem_stepPoints_y_lb xt (s + vol o) os d hd

lemma mem_stepPoints_x (xt : XType) :
    ∀ (s : ℚ) (os : List PublicOrder) (d : Datum),
      d ∈ stepPoints xt s os → ∃ o ∈ os, d.x = metric xt o := by
  intro s os
  induction os generalizing s with
  | nil => intro d hd; simp [stepPoints] at hd
  | cons o os ih =>
      intro d hd
      simp only [stepPoints, List.mem_cons] at hd
      rcases hd with h | h | h
      · exact ⟨o, by simp, by simp [h]⟩
      · exact ⟨o, by simp, by simp [h]⟩
      · obtain ⟨o2, ho2, hx⟩ := ih (s + vol o) d h
        exact ⟨o2, by simp [ho2], hx⟩

lemma mem_stepPoints_order (xt : XType) :
    ∀ (s : ℚ) (os : List PublicOrder) (d : Datum), d ∈ stepPoints xt s os →
      ∀ o, d.order = some o → d.x = metric xt o := by
  intro s os
  induction os generalizing s with
  | nil => intro d hd; simp [stepPoints] at hd
  | cons o os ih =>
      intro d hd o2 ho2
      simp only [stepPoints, List.mem_cons] at hd
      rcases hd with h | h | h
      · rw [h] at ho2; simp at ho2
      · rw [h] at ho2
        simp only [Option.some.injEq] at ho2
        rw [h, ← ho2]
      · exact ih (s + vol o) d h o2 ho2

/-- The window test holds exactly for a finite x strictly inside the open
interval `(c - r, c + r)`; in particular it is false for `undefined`,
`NaN` and infinite x values, and for x exactly at either boundary. -/
lemma inWindowB_num_iff (c r : ℚ) (x : Option JSNum) :
    inWindowB (.num c) (.num r) x = true ↔
      ∃ q, numberOf x = .num q ∧ c - r < q ∧ q < c + r := by
  unfold inWindowB
  rw [jsSub_num, jsAdd_num]
  cases hx : numberOf x with
  | num q =>
      simp [jsGt, jsLt]
  | nan => simp [jsGt, jsLt]
  | inf => simp [jsGt, jsLt]
  | negInf => simp [jsGt, jsLt]

lemma generateSerie_some (xt : XType) (c r : JSNum) (os : List PublicOrder) :
    generateSerie xt (some c) r os =
      (stepPoints xt 0 os).filter (fun d => inWindowB c r d.x) := by
  unfold generateSerie
  rw [rawSerie_eq_stepPoints]

lemma pairwise_y_filter (xt : XType) (c r : JSNum) (os : List PublicOrder) :
    List.Pairwise (fun d1 d2 : Datum => d1.y ≤ d2.y)
      (generateSerie xt (some c) r os) := by
  rw [generateSerie_some]
  exact (stepPoints_pairwise xt 0 os).filter _

/-- C3, general form over an arbitrary per-group order list: the loop is the
closed-form two-points-per-order emission, and y values are pairwise (hence
chain-wise) non-decreasing before and after the window filter. -/
lemma serie_monotone_general (xt : XType) (c r : ℚ) (os : List PublicOrder) :
    rawSerie xt os = stepPoints xt 0 os ∧
      (rawSerie xt os).length = 2 * os.length ∧
      List.Chain' (fun a b => a ≤ b) ((rawSerie xt os).map Datum.y) ∧
      List.Chain' (fun a b => a ≤ b)
        ((generateSerie xt (some (.num c)) (.num r) os).map Datum.y) := by
  refine ⟨rawSerie_eq_stepPoints xt os, ?_, ?_, ?_⟩
  · rw [rawSerie_eq_stepPoints]; exact stepPoints_length xt 0 os
  · rw [rawSerie_eq_stepPoints]
    exact (List.pairwise_map.mpr (stepPoints_pairwise xt 0 os)).chain'
  · exact (List.pairwise_map.mpr (pairwise_y_filter xt (.num c) (.num r) os)).chain'

lemma inWindowB_false_of_nonfinite (c r : ℚ) (x : Option JSNum)
    (h : ∀ q : ℚ, numberOf x ≠ .num q) : inWindowB (.num c) (.num r) x = false := by
  cases hw : inWindowB (.num c) (.num r) x
  · rfl
  · obtain ⟨q, hq, _⟩ := (inWindowB_num_iff c r x).mp hw
    exact absurd hq (h q)

lemma filter_stepPoints_eq_nil (xt : XType) (c r : JSNum) (s : ℚ)
    (os : List PublicOrder) (h : ∀ o ∈ os, inWindowB c r (metric xt o) = false) :
    (stepPoints xt s os).filter (fun d => inWindowB c r d.x) = [] := by
  rw [List.filter_eq_nil_iff]
  intro d hd
  obtain ⟨o, ho, hx⟩ := mem_stepPoints_x xt s os d hd
  simp [hx, h o ho]

/-- Decomposition of the filtered serie around a distinguished order: the
points of `pre` keep their sums, the two points of `o` sit at the running
sum `cumVol pre`, and `post` starts at `cumVol pre + vol o`. -/
lemma generateSerie_decomp (xt : XType) (c r : ℚ) (pre post : List PublicOrder)
    (o : PublicOrder) :
    generateSerie xt (some (.num c)) (.num r) (pre ++ o :: post) =
      (stepPoints xt 0 pre).filter (fun d => inWindowB (.num c) (.num r) d.x) ++
      (stepPoints xt (cumVol pre) [o]).filter (fun d => inWindowB (.num c) (.num r) d.x) ++
      (stepPoints xt (cumVol pre + vol o) post).filter
        (fun d => inWindowB (.num c) (.num r) d.x) := by
  rw [generateSerie_some]
  have h1 : pre ++ o :: post = (pre ++ [o]) ++ post := by simp
  rw [h1, stepPoints_append, stepPoints_append, List.filter_append, List.filter_append]
  simp

/-- The last point of the filtered serie, when the last in-window order is
known: it is that order's landing point, carrying the running sum of all
orders up to and including it — out-of-window orders of `pre` included. -/
lemma generateSerie_getLast (xt : XType) (c r : ℚ) (pre post : List PublicOrder)
    (o : PublicOrder) (ho : inWindowB (.num c) (.num r) (metric xt o) = true)
    (hpost : ∀ o2 ∈ post, inWindowB (.num c) (.num r) (metric xt o2) = false) :
    (generateSerie xt (some (.num c)) (.num r) (pre ++ o :: post)).getLast? =
      some ⟨metric xt o, cumVol pre + vol o, some o⟩ := by
  rw [generateSerie_decomp, filter_stepPoints_eq_nil xt _ _ _ post hpost, List.append_nil]
  have h2 : (stepPoints xt (cumVol pre) [o]).filter
      (fun d => inWindowB (.num c) (.num r) d.x) =
      [⟨metric xt o, cumVol pre, none⟩, ⟨metric xt o, cumVol pre + vol o, some o⟩] := by
    simp [stepPoints, List.filter, ho]
  rw [h2, List.getLast?_append]
  rfl

@[simp] lemma lastDatumY_cons_cons (a b : Datum) (l : List Datum) :
    lastDatumY (a :: b :: l) = lastDatumY (b :: l) := rfl

/-- The imperative `closeSerie` in closed form: an optional synthetic bottom
point, the original serie, and the synthetic top point carrying the last
real y. -/
lemma closeSerie_eq (d : Datum) (rest : List Datum) (lb lt : JSNum) :
    closeSerie (d :: rest) lb lt =
      (if d.y = 0 then [] else [⟨some lb, d.y, none⟩]) ++ (d :: rest) ++
        [⟨some lt, lastDatumY (d :: rest), none⟩] := by
  unfold closeSerie
  by_cases h : d.y = 0 <;> simp [h]

lemma wrap32_eq (n : ℤ) (h0 : 0 ≤ n) (h1 : n < 2 ^ 31) : wrap32 n = n := by
  unfold wrap32
  rw [Int.emod_eq_of_lt (by linarith) (by norm_num; linarith)]
  ring

lemma jsToInt32_num_of_bounds (q : ℚ) (h0 : 0 ≤ q) (h1 : q < 2 ^ 31) :
    jsToInt32 (.num q) = ⌊q⌋ := by
  show wrap32 (ratTrunc q) = ⌊q⌋
  unfold ratTrunc
  rw [if_pos h0]
  refine wrap32_eq _ ?_ ?_
  · exact Int.le_floor.mpr (by exact_mod_cast h0)
  · exact Int.floor_lt.mpr (by exact_mod_cast h1)

/-- On finite values, the JS insertion with the descending comparator
`(a, b) => b - a` agrees with ordered insertion by `≥` on rationals. -/
lemma jsOrderedInsert_map_num (a : ℚ) (qs : List ℚ) :
    jsOrderedInsert (fun x y => jsSub y x) (.num a) (qs.map JSNum.num) =
      (List.orderedInsert (fun x y : ℚ => y ≤ x) a qs).map JSNum.num := by
  induction qs with
  | nil => rfl
  | cons b qs ih =>
      simp only [List.map_cons, jsOrderedInsert, List.orderedInsert]
      have hcmp : jsGt (jsSub (JSNum.num b) (JSNum.num a)) (.num 0) = decide (a < b) := by
        rw [jsSub_num]
        show jsLt (.num 0) (.num (b - a)) = decide (a < b)
        rw [jsLt_num]
        simp [sub_pos]
      rw [hcmp]
      by_cases hab : a < b
      · rw [if_pos (by simp [hab]), if_neg (by simpa using hab)]
        simp [ih]
      · rw [if_neg (by simp [hab]), if_pos (by simpa using hab)]
        simp

/-- On lists of finite values, the JS descending sort agrees with the
rational insertion sort by `≥`. -/
lemma jsSortBy_map_num (qs : List ℚ) :
    jsSortBy (fun x y => jsSub y x) (qs.map JSNum.num) =
      (List.insertionSort (fun x y : ℚ => y ≤ x) qs).map JSNum.num := by
  induction qs with
  | nil => rfl
  | cons a qs ih =>
      simp only [List.map_cons, jsSortBy, ih, List.insertionSort]
      exact jsOrderedInsert_map_num a (List.insertionSort _ qs)

/-- The head of the descending insertion sort of a nonempty rational list is
its maximum. -/
lemma insertionSort_desc_head (qs : List ℚ) (qmax : ℚ) (hmem : qmax ∈ qs)
    (hub : ∀ q ∈ qs, q ≤ qmax) :
    (List.insertionSort (fun x y : ℚ => y ≤ x) qs).head? = some qmax := by
  haveI hTot : IsTotal ℚ (fun x y : ℚ => y ≤ x) := ⟨fun a b => le_total b a⟩
  haveI hTrans : IsTrans ℚ (fun x y : ℚ => y ≤ x) := ⟨fun a b c h1 h2 => le_trans h2 h1⟩
  have hsorted := List.sorted_insertionSort (fun x y : ℚ => y ≤ x) qs
  have hperm := List.perm_insertionSort (fun x y : ℚ => y ≤ x) qs
  cases hs : List.insertionSort (fun x y : ℚ => y ≤ x) qs with
  | nil =>
      rw [hs] at hperm
      rw [hperm.symm.mem_iff] at hmem
      simp at hmem
  | cons h t =>
      rw [hs] at hsorted hperm
      have hh : h ∈ qs := hperm.mem_iff.mp (by simp)
      have hhq : h ≤ qmax := hub h hh
      have hqm : qmax ∈ h :: t := hperm.mem_iff.mpr hmem
      rcases List.mem_cons.mp hqm with he | ht
      · simp [he]
      · have hmh : qmax ≤ h := (List.pairwise_cons.mp hsorted).1 qmax ht
        have heq : h = qmax := le_antisymm hhq hmh
        simp [heq]

/-- On all-finite inputs the modelled `matchMedian` is the rational
median. -/
lemma matchMedian_map_num (qs : List ℚ) :
    matchMedian (qs.map JSNum.num) = .num (ratMedian qs) := by
  unfold matchMedian
  rw [if_pos]
  · congr 1
    rw [List.filterMap_map]
    have h : (JSNum.toRat ∘ JSNum.num) = some := rfl
    rw [h, List.filterMap_some]
  · simp [List.all_eq_true, JSNum.isFinite]

/-- From the per-order hypothesis that every `base_amount` is a defined
finite value, the `prices` array of the center effect is the corresponding
rational list. -/
lemma prices_eq_map_num (os : List PublicOrder) (qs : List ℚ)
    (h : os.map (fun o => o.base_amount) = qs.map (fun q => some (JSNum.num q))) :
    os.map (fun o => o.base_amount.getD (.num 0)) = qs.map JSNum.num := by
  have h1 : os.map (fun o => o.base_amount.getD (.num 0)) =
      (os.map (fun o => o.base_amount)).map (fun v => v.getD (.num 0)) := by
    rw [List.map_map]; rfl
  rw [h1, h, List.map_map]
  rfl

@[simp] lemma jsLt_nan_right (x : JSNum) : jsLt x .nan = false := by
  cases x <;> rfl

@[simp] lemma inWindowB_some_num (c r q : ℚ) :
    inWindowB (.num c) (.num r) (some (.num q)) =
      (decide (c - r < q) && decide (q < c + r)) := by
  simp [inWindowB, jsGt, jsLt]

@[simp] lemma inWindowB_undefined (c r : JSNum) : inWindowB c r none = false := by
  simp [inWindowB, jsGt]

/-- C1 counterexample: the order `sampleOrder` has a known coordinator but
the lookup has no reference price entry for currency 1; the normalizer then
assigns `base_amount = (100 * 0) / 0 = NaN`, not the order's own price
`100`, so the claimed pass-through fails at this input. -/
theorem c1_counterexample :
    (normalizeOrder emptyLookup 1 sampleOrder).base_amount = some JSNum.nan ∧
      (normalizeOrder emptyLookup 1 sampleOrder).base_amount ≠
        some (.num sampleOrder.price) := by
  constructor <;>
    simp [normalizeOrder, sampleOrder, emptyLookup, jsMul, jsDiv]

/-- C1 (amended): for every order with a known source coordinator whose
coordinator has no reference price entry for the active currency code, the
normalizer falls back to a rate of `0` and assigns
`baseAmount = (price * 0) / 0 = NaN` — not the order's own price — and
raises no error (the transformation is total). -/
theorem c1_missing_rate_gives_nan (g : String → ℕ → Option ℚ) (cc : ℕ)
    (o : PublicOrder) (a : String) (ha : o.coordinatorShortAlias = some a)
    (hmiss : g a cc = none) :
    (normalizeOrder g cc o).base_amount = some JSNum.nan := by
  unfold normalizeOrder
  rw [ha]
  simp [hmiss, jsMul, jsDiv]

/-- Witness for `c1_missing_rate_gives_nan` at `sampleOrder`. -/
theorem c1_witness :
    sampleOrder.coordinatorShortAlias = some expAlias ∧
      emptyLookup expAlias 1 = none ∧
      (normalizeOrder emptyLookup 1 sampleOrder).base_amount = some JSNum.nan :=
  ⟨rfl, rfl, c1_missing_rate_gives_nan emptyLookup 1 sampleOrder expAlias rfl rfl⟩

/-- C2 counterexample: a normalization pass over the snapshot
`[sampleOrder]` with a present reference price does not leave the
externally-owned orders unchanged — `base_amount` is written in place (the
mapped list is the post-state of the shared order objects). -/
theorem c2_counterexample : normalizeBook constLookup 1 [sampleOrder] ≠ [sampleOrder] := by
  decide

/-- C2 (amended): the normalizer does mutate the shared state: each order
with a known coordinator has its `base_amount` field overwritten in place
with `(price * rate) / rate`, every other field is preserved, and
coordinator-less orders are left untouched; the enriched output list
aliases the mutated input objects. -/
theorem c2_mutates_only_base_amount (g : String → ℕ → Option ℚ) (cc : ℕ)
    (o : PublicOrder) :
    normalizeOrder g cc o = { o with base_amount := (normalizeOrder g cc o).base_amount } ∧
      (normalizeOrder g cc o).base_amount =
        (match o.coordinatorShortAlias with
          | none => o.base_amount
          | some a =>
              some (jsDiv (jsMul (.num o.price) (.num ((g a cc).getD 0)))
                (.num ((g a cc).getD 0)))) := by
  obtain ⟨i, t, p, pr, sn, ca, ba⟩ := o
  cases ca with
  | none => exact ⟨rfl, rfl⟩
  | some a => exact ⟨rfl, rfl⟩

/-- C3: for every per-group order list, the emission loop of
`generateSerie` produces exactly two points per order at the order's metric
— first the pre-increment running sum, then the post-increment sum (the
closed form `stepPoints`) — and the emitted y values are non-decreasing in
emission order, both before and after the window filter; this holds in
particular for the buy and the sell group. -/
theorem c3_cumulative_nondecreasing (xt : XType) (c r : ℚ) (os : List PublicOrder) :
    rawSerie xt os = stepPoints xt 0 os ∧
      (rawSerie xt os).length = 2 * os.length ∧
      List.Chain' (fun a b => a ≤ b) ((rawSerie xt os).map Datum.y) ∧
      List.Chain' (fun a b => a ≤ b)
        ((generateSerie xt (some (.num c)) (.num r) os).map Datum.y) :=
  serie_monotone_general xt c r os

/-- C4 counterexample: for the sell group `[farSellOrder, nearSellOrder]`
with window center 0 and half-width 8, the last emitted y value is 2 BTC —
the running sum including the out-of-window order at premium −10 — while
the volume of the orders whose metric falls within the window is only
1 BTC, so the claimed equality fails at this input. -/
theorem c4_counterexample :
    (generateSerie .premium (some (.num 0)) (.num 8)
        [farSellOrder, nearSellOrder]).getLast?.map Datum.y = some 2 ∧
      windowVolume .premium 0 8 [farSellOrder, nearSellOrder] = 1 ∧ (2 : ℚ) ≠ 1 := by
  refine ⟨?_, ?_, by norm_num⟩
  · norm_num [generateSerie, rawSerie, serieStep, metric, vol, farSellOrder,
      nearSellOrder, List.filter]
  · norm_num [windowVolume, cumVol, vol, metric, farSellOrder, nearSellOrder,
      List.filter]

/-- C4 (amended): the last emitted y value of a group's filtered series is
the running cumulative sum through the last order whose metric lies in the
window — the total volume of all orders up to and including that order in
traversal order, which also counts volumes of earlier orders outside the
window; it equals the in-window volume sum only when that out-of-window
contribution is zero. -/
theorem c4_last_is_running_sum (xt : XType) (c r : ℚ) (pre post : List PublicOrder)
    (o : PublicOrder) (ho : inWindowB (.num c) (.num r) (metric xt o) = true)
    (hpost : ∀ o2 ∈ post, inWindowB (.num c) (.num r) (metric xt o2) = false) :
    (generateSerie xt (some (.num c)) (.num r) (pre ++ o :: post)).getLast? =
      some ⟨metric xt o, cumVol pre + vol o, some o⟩ :=
  generateSerie_getLast xt c r pre post o ho hpost

/-- Witness for `c4_last_is_running_sum` with one out-of-window order ahead
of `nearSellOrder`. -/
theorem c4_witness :
    inWindowB (.num 0) (.num 8) (metric .premium nearSellOrder) = true ∧
      (∀ o2 ∈ ([] : List PublicOrder),
        inWindowB (.num 0) (.num 8) (metric .premium o2) = false) ∧
      (generateSerie .premium (some (.num 0)) (.num 8)
          ([farSellOrder] ++ nearSellOrder :: [])).getLast? =
        some ⟨metric .premium nearSellOrder, cumVol [farSellOrder] + vol nearSellOrder,
          some nearSellOrder⟩ :=
  ⟨by norm_num [metric, nearSellOrder], by simp,
    c4_last_is_running_sum .premium 0 8 [farSellOrder] [] nearSellOrder
      (by norm_num [metric, nearSellOrder]) (by simp)⟩

/-- C5: a point belongs to the output of `generateSerie` exactly when it
was emitted by the loop and its x value is a finite number strictly inside
the open interval `(center - xRange, center + xRange)`; points at or beyond
either boundary (and points with non-numeric x) are dropped before
boundary-closing. -/
theorem c5_strict_open_window (xt : XType) (c r : ℚ) (os : List PublicOrder) (d : Datum) :
    d ∈ generateSerie xt (some (.num c)) (.num r) os ↔
      d ∈ rawSerie xt os ∧ ∃ q, numberOf d.x = .num q ∧ c - r < q ∧ q < c + r := by
  have h : generateSerie xt (some (.num c)) (.num r) os =
      (rawSerie xt os).filter (fun dd => inWindowB (.num c) (.num r) dd.x) := rfl
  rw [h]
  simp only [List.mem_filter, inWindowB_num_iff]

/-- C6 counterexample: a mount pass over an empty order book does not leave
`center` undefined — the center/window effect has no emptiness guard, so in
premium mode without an external reference it sets
`center = ~~matchMedian([]) = 0`. -/
theorem c6_counterexample :
    (mountPass matchMedian emptyLookup 1 .premium none []).center = some (.num 0) := by
  norm_num [mountPass, initialState, centerEffectBody, matchMedian, ratMedian,
    jsToInt32, ratTrunc, wrap32, List.insertionSort]

/-- C6 (amended): whenever `center` is undefined the per-group series
generator returns the empty list immediately, and after a mount pass over
an empty order list both output series are empty; `center`, however, does
not stay undefined — the center/window effect still runs and assigns a
number (for any behavior of the external median helper and any axis mode
or external premium reference). -/
theorem c6_undefined_center_series_empty (m : List JSNum → JSNum)
    (g : String → ℕ → Option ℚ) (cc : ℕ) (xt : XType) (ep : Option ℚ)
    (r : JSNum) (os : List PublicOrder) :
    generateSerie xt none r os = [] ∧
      (mountPass m g cc xt ep []).seriesBuy = [] ∧
      (mountPass m g cc xt ep []).seriesSell = [] ∧
      (mountPass m g cc xt ep []).center ≠ none := by
  have hmp : mountPass m g cc xt ep [] = centerEffectBody m xt ep initialState := by
    simp [mountPass, initialState]
  refine ⟨rfl, ?_, ?_, ?_⟩ <;>
    rw [hmp] <;> cases xt <;> cases ep <;> simp [centerEffectBody, initialState]

/-- C7 counterexample: closing the serie `flatStartSerie` (whose first y is
0) with bottom limit 0 and top limit 8 yields a series with no point at
`x = bottomLimit = 0`: nothing is prepended when the first y is zero, so
the closed series does not span from `bottomLimit`. -/
theorem c7_counterexample :
    ¬ ∃ dd ∈ closeSerie flatStartSerie (.num 0) (.num 8), dd.x = some (.num 0) := by
  norm_num [closeSerie, flatStartSerie, lastDatumY]

/-- C7 (amended): on a nonempty serie the closer always appends a point at
`x = topLimit` carrying the last real point's y, and prepends a point at
`(bottomLimit, first y)` exactly when the first point's y is not zero; when
that y is zero nothing is prepended, so the closed series need not contain
any point at `bottomLimit`. -/
theorem c7_closes_at_limits (d : Datum) (rest : List Datum) (lb lt : JSNum) :
    closeSerie (d :: rest) lb lt =
      (if d.y = 0 then [] else [⟨some lb, d.y, none⟩]) ++ (d :: rest) ++
        [⟨some lt, lastDatumY (d :: rest), none⟩] ∧
      (⟨some lt, lastDatumY (d :: rest), none⟩ : Datum) ∈ closeSerie (d :: rest) lb lt := by
  refine ⟨closeSerie_eq d rest lb lt, ?_⟩
  rw [closeSerie_eq]
  simp

/-- C8: in price mode, over orders whose base amounts are the defined
finite values `qs` (with the median nonnegative and within the int32
range, and `qmax` the maximum), the recomputation sets
`center = ⌊median qs⌋` (the median rounded down), `xRange = qmax - center`,
and `rangeSteps = xRange / 10`. -/
theorem c8_price_mode_window (ep : Option ℚ) (s : ChartState) (qs : List ℚ)
    (qmax : ℚ)
    (horders : s.enrichedOrders.map (fun o => o.base_amount) =
      qs.map (fun q => some (JSNum.num q)))
    (hmem : qmax ∈ qs) (hub : ∀ q ∈ qs, q ≤ qmax)
    (hmed0 : 0 ≤ ratMedian qs) (hmed1 : ratMedian qs < 2 ^ 31) :
    (centerEffectBody matchMedian .base_amount ep s).center =
        some (.num ((⌊ratMedian qs⌋ : ℤ) : ℚ)) ∧
      (centerEffectBody matchMedian .base_amount ep s).xRange =
        .num (qmax - ((⌊ratMedian qs⌋ : ℤ) : ℚ)) ∧
      (centerEffectBody matchMedian .base_amount ep s).rangeSteps =
        .num ((qmax - ((⌊ratMedian qs⌋ : ℤ) : ℚ)) / 10) := by
  have hp : s.enrichedOrders.map (fun o => o.base_amount.getD (.num 0)) =
      qs.map JSNum.num := prices_eq_map_num s.enrichedOrders qs horders
  have hmm : matchMedian (s.enrichedOrders.map (fun o => o.base_amount.getD (.num 0))) =
      .num (ratMedian qs) := by rw [hp, matchMedian_map_num]
  have hti : jsToInt32 (.num (ratMedian qs)) = ⌊ratMedian qs⌋ :=
    jsToInt32_num_of_bounds _ hmed0 hmed1
  have hmax : (jsSortBy (fun a b => jsSub b a)
      (s.enrichedOrders.map (fun o => o.base_amount.getD (.num 0)))).head? =
      some (.num qmax) := by
    rw [hp, jsSortBy_map_num, List.head?_map, insertionSort_desc_head qs qmax hmem hub]
    rfl
  have hsub : jsSub (.num qmax) (.num ((⌊ratMedian qs⌋ : ℤ) : ℚ)) =
      .num (qmax - ((⌊ratMedian qs⌋ : ℤ) : ℚ)) := jsSub_num _ _
  have hdiv : jsDiv (.num (qmax - ((⌊ratMedian qs⌋ : ℤ) : ℚ))) (.num 10) =
      .num ((qmax - ((⌊ratMedian qs⌋ : ℤ) : ℚ)) / 10) :=
    jsDiv_num_of_ne _ 10 (by norm_num)
  refine ⟨?_, ?_, ?_⟩ <;>
    simp only [centerEffectBody, hmm, hti, hmax, Option.getD_some, hsub, hdiv]

/-- Witness for `c8_price_mode_window` on base amounts 10, 30, 20 (median
20, maximum 30). -/
theorem c8_witness :
    pricedState.enrichedOrders.map (fun o => o.base_amount) =
        ([10, 30, 20] : List ℚ).map (fun q => some (JSNum.num q)) ∧
      (0 : ℚ) ≤ ratMedian ([10, 30, 20] : List ℚ) ∧
      ratMedian ([10, 30, 20] : List ℚ) < 2 ^ 31 ∧
      (centerEffectBody matchMedian .base_amount none pricedState).center =
        some (.num ((⌊ratMedian ([10, 30, 20] : List ℚ)⌋ : ℤ) : ℚ)) ∧
      (centerEffectBody matchMedian .base_amount none pricedState).xRange =
        .num (30 - ((⌊ratMedian ([10, 30, 20] : List ℚ)⌋ : ℤ) : ℚ)) ∧
      (centerEffectBody matchMedian .base_amount none pricedState).rangeSteps =
        .num ((30 - ((⌊ratMedian ([10, 30, 20] : List ℚ)⌋ : ℤ) : ℚ)) / 10) := by
  have h1 : pricedState.enrichedOrders.map (fun o => o.base_amount) =
      ([10, 30, 20] : List ℚ).map (fun q => some (JSNum.num q)) := by
    simp [pricedState, initialState, pricedOrder1, pricedOrder2, pricedOrder3]
  have hmed : ratMedian ([10, 30, 20] : List ℚ) = 20 := by
    norm_num [ratMedian, List.insertionSort, List.orderedInsert]
  have h4 : (0 : ℚ) ≤ ratMedian ([10, 30, 20] : List ℚ) := by rw [hmed]; norm_num
  have h5 : ratMedian ([10, 30, 20] : List ℚ) < 2 ^ 31 := by rw [hmed]; norm_num
  obtain ⟨hc, hx, hr⟩ := c8_price_mode_window none pricedState [10, 30, 20] 30 h1
    (by norm_num) (by intro q hq; fin_cases hq <;> norm_num) h4 h5
  exact ⟨h1, h4, h5, hc, hx, hr⟩

/-- C9: the zoom control that decreases the half-width (`setXRange(xRange -
rangeSteps)`) is disabled exactly when the half-width is at most 1, while
the control that increases it (`setXRange(xRange + rangeSteps)`) carries no
`disabled` attribute and is never disabled. -/
theorem c9_zoom_guards (r st : ℚ) :
    (narrowRangeDisabled (.num r) = true ↔ r ≤ 1) ∧
      widenRangeDisabled = false ∧
      narrowRangeOnClick (.num r) (.num st) = .num (r - st) ∧
      widenRangeOnClick (.num r) (.num st) = .num (r + st) := by
  refine ⟨?_, rfl, ?_, ?_⟩
  · simp [narrowRangeDisabled]
  · simp [narrowRangeOnClick]
  · simp [widenRangeOnClick]

/-- C10: in price mode an order whose `base_amount` is undefined or `NaN`
still adds its volume to the running sum — the points after it start at
`cumVol pre + vol o` — but neither of its two emitted points survives the
window filter (the strict comparisons are false for a non-numeric x), and
no point of the output carries it as originating order. -/
theorem c10_nonfinite_filtered (c r : ℚ) (pre post : List PublicOrder)
    (o : PublicOrder)
    (hbad : o.base_amount = none ∨ o.base_amount = some JSNum.nan) :
    generateSerie .base_amount (some (.num c)) (.num r) (pre ++ o :: post) =
      (stepPoints .base_amount 0 pre).filter
        (fun d => inWindowB (.num c) (.num r) d.x) ++
      (stepPoints .base_amount (cumVol pre + vol o) post).filter
        (fun d => inWindowB (.num c) (.num r) d.x) ∧
    ∀ d ∈ generateSerie .base_amount (some (.num c)) (.num r) (pre ++ o :: post),
      d.order ≠ some o := by
  have hnan : numberOf o.base_amount = .nan := by
    rcases hbad with h | h <;> simp [h]
  have hwin : inWindowB (.num c) (.num r) (metric .base_amount o) = false := by
    apply inWindowB_false_of_nonfinite
    intro q hq
    rw [show metric .base_amount o = o.base_amount from rfl, hnan] at hq
    cases hq
  constructor
  · rw [generateSerie_decomp]
    have hmid : (stepPoints .base_amount (cumVol pre) [o]).filter
        (fun d => inWindowB (.num c) (.num r) d.x) = [] := by
      refine filter_stepPoints_eq_nil _ _ _ _ [o] ?_
      intro o2 ho2
      rw [List.mem_singleton] at ho2
      rw [ho2]
      exact hwin
    rw [hmid, List.append_nil]
  · intro d hd hdo
    rw [generateSerie_some, List.mem_filter] at hd
    obtain ⟨hmem, hwd⟩ := hd
    obtain ⟨q, hq, _⟩ := (inWindowB_num_iff c r d.x).mp hwd
    have hx := mem_stepPoints_order .base_amount 0 (pre ++ o :: post) d hmem o hdo
    rw [hx, show metric .base_amount o = o.base_amount from rfl, hnan] at hq
    cases hq

/-- Witness for `c10_nonfinite_filtered`: `nanOrder` (undefined base
amount) between two orders with finite base amounts, window center 5 and
half-width 3. -/
theorem c10_witness :
    (nanOrder.base_amount = none ∨ nanOrder.base_amount = some JSNum.nan) ∧
      (generateSerie .base_amount (some (.num 5)) (.num 3)
          ([finOrder1] ++ nanOrder :: [finOrder2]) =
        (stepPoints .base_amount 0 [finOrder1]).filter
          (fun d => inWindowB (.num 5) (.num 3) d.x) ++
        (stepPoints .base_amount (cumVol [finOrder1] + vol nanOrder) [finOrder2]).filter
          (fun d => inWindowB (.num 5) (.num 3) d.x) ∧
      ∀ d ∈ generateSerie .base_amount (some (.num 5)) (.num 3)
          ([finOrder1] ++ nanOrder :: [finOrder2]), d.order ≠ some nanOrder) :=
  ⟨Or.inl rfl, c10_nonfinite_filtered 5 3 [finOrder1] [finOrder2] nanOrder (Or.inl rfl)⟩
